import Mathlib

/-!
Verification of the gateway contract-test tool
(`hack/gateway-contract-test/main.go`): a shallow embedding of its data
model, path normalization, spec loading, route extraction, validation
loop and exit-code logic, together with proofs settling the frozen
claims about the tool.

Go maps are modelled as association lists (`List (String × _)`); Go map
iteration order is unspecified, so where a map is iterated the iteration
order is passed explicitly as a list of entries. Machine-level details
of the Go standard library (`net/url`, `strings.ToUpper` on non-ASCII)
are modelled by simplified pure functions, each marked in its doc
comment.
-/

/-- One upstream target of an endpoint, from `Backend` in `main.go`. -/
structure Backend where
  urlPattern : String
  method : String
  host : List String
  deriving DecidableEq

/-- A gateway endpoint, from `Endpoint` in `main.go`. -/
structure Endpoint where
  path : String
  method : String
  backend : List Backend
  deriving DecidableEq

/-- Reference to the OpenAPI document for a hostname, from
`ContractSpec` in `main.go`. -/
structure ContractSpec where
  openAPIURL : String
  deriving DecidableEq

/-- KrakenD gateway configuration (partial), from `KrakenDConfig` in
`main.go`. The Go field `ContractSpecs` is a `map[string]ContractSpec`;
it is modelled as its list of entries in JSON declaration order. -/
structure KrakenDConfig where
  endpoints : List Endpoint
  contractSpecs : List (String × ContractSpec)
  deriving DecidableEq

/-- One entry of the `servers` list of an OpenAPI document, from
`Server` in `main.go`. -/
structure Server where
  url : String
  deriving DecidableEq

/-- A route extracted from the gateway config, from `backendRoute` in
`main.go`. -/
structure backendRoute where
  method : String
  path : String
  hostname : String
  deriving DecidableEq

/-- The opening-brace character, written by code point to keep brace
characters out of literals. -/
def lbrace : Char := Char.ofNat 123

/-- The closing-brace character, written by code point. -/
def rbrace : Char := Char.ofNat 125

/-- Character scanner realizing `paramRe.ReplaceAllString(p, "\x7b_\x7d")`
with `paramRe = \x7b[^\x7d]+\x7d`: Go regexp replaces each leftmost
non-overlapping match, i.e. each span from a `\x7b` through the first
following `\x7d` with at least one character in between, by the
three-character wildcard token. The second argument is `none` outside a
potential match and `some buf` after an unmatched `\x7b`, where `buf`
holds the (reversed) characters seen since, none of which is a `\x7d`.
An unterminated buffer is flushed literally at the end of input. -/
def normStep : List Char → Option (List Char) → List Char
  | [], none => []
  | [], some buf => lbrace :: buf.reverse
  | c :: rest, none =>
      if c = lbrace then normStep rest (some [])
      else c :: normStep rest none
  | c :: rest, some buf =>
      if c = rbrace then
        if buf.isEmpty then lbrace :: rbrace :: normStep rest none
        else lbrace :: '_' :: rbrace :: normStep rest none
      else normStep rest (some (c :: buf))

/-- Replace every regex match `\x7b[^\x7d]+\x7d` by the wildcard token,
on character lists. -/
def replaceParams (l : List Char) : List Char := normStep l none

/-- Path normalizer, from `normalizePath` in `main.go`: collapse every
brace-delimited parameter to the canonical wildcard token. -/
def normalizePath (p : String) : String := String.mk (replaceParams p.data)

example : normalizePath "/users/\x7bid\x7d" = "/users/\x7b_\x7d" := by decide
example : normalizePath "\x7b\x7d" = "\x7b\x7d" := by decide
example : normalizePath "a\x7bb\x7dc\x7bd" = "a\x7b_\x7dc\x7bd" := by decide
example : normalizePath "\x7b\x7ba\x7d\x7d" = "\x7b_\x7d\x7d" := by decide
example : normalizePath "\x7ba/b\x7d" = "\x7b_\x7d" := by decide

/-- Shapes of character lists that the normalizer maps to themselves:
literal characters other than an opening brace, the wildcard token, a
brace immediately closed again, and an opening brace never followed by a
closing brace. Every normalizer output has this shape. -/
inductive NormalForm : List Char → Prop
  | nil : NormalForm []
  | cons {c : Char} {l : List Char} : c ≠ lbrace → NormalForm l → NormalForm (c :: l)
  | tok {l : List Char} : NormalForm l → NormalForm (lbrace :: '_' :: rbrace :: l)
  | openEmpty {l : List Char} : NormalForm l → NormalForm (lbrace :: rbrace :: l)
  | openNone {l : List Char} : rbrace ∉ l → NormalForm (lbrace :: l)

/-- A pending buffer over input without a closing brace is flushed
literally. -/
theorem normStep_no_close (l : List Char) (hl : rbrace ∉ l) (buf : List Char) :
    normStep l (some buf) = lbrace :: (buf.reverse ++ l) := by
  induction l generalizing buf with
  | nil => simp [normStep]
  | cons c rest ih =>
      have hc : c ≠ rbrace := by
        intro h; exact hl (h ▸ List.mem_cons_self c rest)
      have hr : rbrace ∉ rest := fun h => hl (List.mem_cons_of_mem _ h)
      simp [normStep, hc, ih hr]

/-- Input without a closing brace is left unchanged. -/
theorem normStep_none_no_close (l : List Char) (hl : rbrace ∉ l) :
    normStep l none = l := by
  induction l with
  | nil => rfl
  | cons c rest ih =>
      have hr : rbrace ∉ rest := fun h => hl (List.mem_cons_of_mem _ h)
      by_cases hc : c = lbrace
      · subst hc
        simp [normStep, normStep_no_close rest hr []]
      · simp [normStep, hc, ih hr]

/-- The normalizer fixes every list in normal form. -/
theorem normStep_of_normalForm {l : List Char} (h : NormalForm l) :
    normStep l none = l := by
  induction h with
  | nil => rfl
  | cons hc _ ih => simp [normStep, hc, ih]
  | tok _ ih =>
      have h1 : ('_' : Char) ≠ rbrace := by decide
      simp [normStep, h1, ih]
  | openEmpty _ ih => simp [normStep, ih]
  | openNone hl => simp [normStep, normStep_no_close _ hl []]

/-- Every normalizer output is in normal form, for both scanner
states. -/
theorem normStep_normalForm (l : List Char) :
    NormalForm (normStep l none) ∧
      ∀ buf : List Char, rbrace ∉ buf → NormalForm (normStep l (some buf)) := by
  induction l with
  | nil =>
      refine ⟨NormalForm.nil, ?_⟩
      intro buf hb
      have hrev : rbrace ∉ buf.reverse := by simpa using hb
      simpa [normStep] using NormalForm.openNone hrev
  | cons c rest ih =>
      obtain ⟨ihn, ihs⟩ := ih
      constructor
      · by_cases hc : c = lbrace
        · subst hc
          simpa [normStep] using ihs [] (by simp)
        · simpa [normStep, hc] using NormalForm.cons hc ihn
      · intro buf hb
        by_cases hc : c = rbrace
        · subst hc
          by_cases hbuf : buf = []
          · subst hbuf
            simpa [normStep] using NormalForm.openEmpty ihn
          · have hne : buf.isEmpty = false := by
              cases buf with
              | nil => exact absurd rfl hbuf
              | cons x xs => rfl
            simpa [normStep, hne] using NormalForm.tok ihn
        · have hmem : rbrace ∉ c :: buf := by
            intro h
            rcases List.mem_cons.mp h with h | h
            · exact hc h.symm
            · exact hb h
          simpa [normStep, hc] using ihs (c :: buf) hmem

/-- C4: path normalization is idempotent: normalizing an
already-normalized path is a no-op, for every path string. -/
theorem normalizePath_idempotent (p : String) :
    normalizePath (normalizePath p) = normalizePath p := by
  unfold normalizePath replaceParams
  exact congrArg String.mk (normStep_of_normalForm (normStep_normalForm p.data).1)

/-- Number of slash-separated segments of a path string: one more than
the number of separator characters, matching the length of the list
produced by splitting on the separator. -/
def segCount (s : String) : Nat := s.data.count '/' + 1

/-- Decides that no brace-delimited parameter placeholder of the input
contains a slash, following the same scanner states as the normalizer:
whenever a placeholder closes, the buffered parameter content must be
slash-free. -/
def slashFreeParams : List Char → Option (List Char) → Bool
  | [], _ => true
  | c :: rest, none =>
      if c = lbrace then slashFreeParams rest (some [])
      else slashFreeParams rest none
  | c :: rest, some buf =>
      if c = rbrace then (buf.count '/' == 0) && slashFreeParams rest none
      else slashFreeParams rest (some (c :: buf))

/-- On slash-free-parameter input the normalizer preserves the number of
slash characters, in both scanner states. -/
theorem normStep_count_slash (l : List Char) :
    (slashFreeParams l none = true →
      (normStep l none).count '/' = l.count '/')
    ∧ ∀ buf : List Char, slashFreeParams l (some buf) = true →
        (normStep l (some buf)).count '/' = buf.count '/' + l.count '/' := by
  have hlb : (lbrace == '/') = false := by decide
  have hrb : (rbrace == '/') = false := by decide
  have hus : (('_' : Char) == '/') = false := by decide
  induction l with
  | nil =>
      refine ⟨fun _ => rfl, ?_⟩
      intro buf _
      simp [normStep, List.count_cons, hlb, List.count_reverse]
  | cons c rest ih =>
      obtain ⟨ihn, ihs⟩ := ih
      constructor
      · intro h
        by_cases hc : c = lbrace
        · subst hc
          have h2 : slashFreeParams rest (some []) = true := by
            simpa [slashFreeParams] using h
          have := ihs [] h2
          simpa [normStep, List.count_cons, hlb] using this
        · have h2 : slashFreeParams rest none = true := by
            simpa [slashFreeParams, hc] using h
          simp [normStep, hc, List.count_cons, ihn h2]
      · intro buf h
        by_cases hc : c = rbrace
        · subst hc
          have h2 : buf.count '/' = 0 ∧ slashFreeParams rest none = true := by
            have := h
            simp [slashFreeParams, Bool.and_eq_true, Nat.beq_eq] at this
            simpa using this
          by_cases hbuf : buf.isEmpty
          · simp [normStep, hbuf, List.count_cons, hlb, hrb, ihn h2.2, h2.1,
              List.count_cons]
          · have hbe : buf.isEmpty = false := by
              cases hb2 : buf.isEmpty
              · rfl
              · exact absurd hb2 hbuf
            simp [normStep, hbe, List.count_cons, hlb, hrb, hus, ihn h2.2, h2.1]
        · have h2 : slashFreeParams rest (some (c :: buf)) = true := by
            simpa [slashFreeParams, hc] using h
          have := ihs (c :: buf) h2
          rw [normStep]
          simp only [if_neg hc]
          rw [this]
          simp [List.count_cons]
          omega

/-- C5 counterexample: a parameter placeholder containing a slash is
collapsed to one wildcard segment, so segment count is not preserved for
every input string. -/
theorem segment_count_not_preserved :
    segCount (normalizePath "\x7ba/b\x7d") = 1 ∧ segCount "\x7ba/b\x7d" = 2 ∧
      segCount (normalizePath "\x7ba/b\x7d") ≠ segCount "\x7ba/b\x7d" := by
  decide

/-- C5 (amended): path normalization preserves the number of path
segments for every path string in which no brace-delimited parameter
placeholder contains a slash. -/
theorem segment_count_preserved_of_slash_free (p : String)
    (h : slashFreeParams p.data none = true) :
    segCount (normalizePath p) = segCount p := by
  have hc := (normStep_count_slash p.data).1 h
  show (normalizePath p).data.count '/' + 1 = p.data.count '/' + 1
  rw [show (normalizePath p).data = normStep p.data none from rfl, hc]

/-- Witness for the amended C5 theorem at a concrete slash-free path. -/
theorem segment_count_preserved_witness :
    slashFreeParams ("/v1/\x7bid\x7d" : String).data none = true ∧
      segCount (normalizePath "/v1/\x7bid\x7d") = segCount "/v1/\x7bid\x7d" :=
  ⟨by decide, segment_count_preserved_of_slash_free "/v1/\x7bid\x7d" (by decide)⟩

/-- True when the character list contains the scheme separator `://`. -/
def containsSchemeSep : List Char → Bool
  | [] => false
  | ':' :: '/' :: '/' :: _ => true
  | _ :: rest => containsSchemeSep rest

/-- Everything after the first scheme separator `://`, or the empty list
when there is none. -/
def dropThroughSchemeSep : List Char → List Char
  | [] => []
  | ':' :: '/' :: '/' :: rest => rest
  | _ :: rest => dropThroughSchemeSep rest

/-- Modelled from the Go standard library `net/url` (not part of this
repository): the path component of a URL written with a scheme
separator, namely everything from the first slash after the authority up
to a query or fragment delimiter. Percent-decoding is omitted. -/
def urlPathOf (l : List Char) : List Char :=
  ((dropThroughSchemeSep l).dropWhile (fun c => !(c == '/'))).takeWhile
    (fun c => !(c == '?') && !(c == '#'))

/-- Modelled from the Go standard library `net/url` (not part of this
repository): `url.Parse` returns an error for a string containing an
ASCII control character; rarer error cases (such as malformed percent
escapes) are not modelled. -/
def containsCtl (l : List Char) : Bool :=
  l.any (fun c => decide (c.toNat < 32) || c.toNat == 127)

/-- The authority component of a URL: the span between the leading
`scheme://` (or a leading `//`) and the next slash, query or fragment
delimiter; empty when the string has no authority marker. Modelled from
the Go standard library `net/url`. -/
def authorityOf (l : List Char) : List Char :=
  if containsSchemeSep l then
    (dropThroughSchemeSep l).takeWhile
      (fun c => !(c == '/') && !(c == '?') && !(c == '#'))
  else if l.take 2 = ['/', '/'] then
    (l.drop 2).takeWhile (fun c => !(c == '/') && !(c == '?') && !(c == '#'))
  else []

/-- Modelled from the Go standard library `net/url`: the network
hostname of a parsed URL, i.e. the authority host with any port
stripped; empty for a URL with no authority. Userinfo and bracketed
IPv6 hosts are simplified away. -/
def goHostname (l : List Char) : List Char :=
  (authorityOf l).takeWhile (fun c => !(c == ':'))

/-- From `extractHostname` in `main.go`: parse the host URL and return
its network hostname; when parsing fails (modelled as the presence of a
control character) the raw input string is returned unchanged. -/
def extractHostname (hostURL : String) : String :=
  if containsCtl hostURL.data then hostURL
  else String.mk (goHostname hostURL.data)

/-- Hostname resolution from the route-extraction loop in `main` (lines
153 to 156): the empty string for an empty host list, otherwise the
extracted hostname of the first host entry. -/
def resolveHostname (b : Backend) : String :=
  match b.host with
  | [] => ""
  | h :: _ => extractHostname h

example : extractHostname "https://svc.example:8080/x" = "svc.example" := by decide
example : extractHostname "svc.example" = "" := by decide
example : extractHostname "\x01" = "\x01" := by decide

/-- Modelled from `strings.TrimSuffix(s, "/")` in the Go standard
library: remove one trailing slash when present. -/
def trimSuffixSlash (l : List Char) : List Char :=
  match l.reverse with
  | '/' :: t => t.reverse
  | _ => l

/-- True when the list starts with `http://` or `https://`, from the
prefix test in `parseSpec` in `main.go`. -/
def hasHTTPPrefix (l : List Char) : Bool :=
  "http://".data.isPrefixOf l || "https://".data.isPrefixOf l

/-- Base-path derivation from `parseSpec` in `main.go` (lines 240 to
251): empty for an empty server list; for a first server URL starting
with `http://` or `https://`, the path component of the parsed URL with
one trailing slash removed — but left empty when `url.Parse` rejects the
URL (the `err == nil` guard on line 245; the error is modelled as the
presence of a control character, as in `extractHostname`); otherwise the
raw URL string with one trailing slash removed. -/
def basePathOf : List Server → List Char
  | [] => []
  | s :: _ =>
      if hasHTTPPrefix s.url.data then
        if containsCtl s.url.data then []
        else trimSuffixSlash (urlPathOf s.url.data)
      else trimSuffixSlash s.url.data

/-- Base-path derivation as the claim words it: for an absolute first
server URL (one having a scheme) the path component of that URL, for a
relative one the raw string, and empty for a missing server list. This
definition follows the claim, to be compared with `basePathOf` from the
source. -/
def basePathClaim : List Server → List Char
  | [] => []
  | s :: _ =>
      if containsSchemeSep s.url.data then urlPathOf s.url.data
      else s.url.data

example : basePathOf [Server.mk "https://svc.example/v1"] = "/v1".data := by decide
example : basePathOf [Server.mk "/v1/"] = "/v1".data := by decide
example : basePathOf [Server.mk "http://h\x01/v1/"] = [] := by decide
example : basePathOf [] = [] := by decide

/-- Base-path derivation as the amended claim words it: for a first
server URL starting with `http://` or `https://` the path component of
the parsed URL with one trailing slash removed, or empty when the URL
fails to parse; otherwise the raw string with one trailing slash
removed; and empty for a missing server list. -/
def basePathAmended : List Server → List Char
  | [] => []
  | s :: _ =>
      if hasHTTPPrefix s.url.data then
        if containsCtl s.url.data then []
        else trimSuffixSlash (urlPathOf s.url.data)
      else trimSuffixSlash s.url.data

/-- C6 counterexample: the claimed derivation differs from the code on a
first server URL with a non-HTTP scheme (the code treats it as a raw
string, the claim takes its path component), on a relative URL with a
trailing slash (the code trims the slash, the claim keeps the raw
string), and on an HTTP URL that fails to parse (the code leaves the
base path empty, the claim takes the path component). -/
theorem base_path_claim_counterexample :
    basePathOf [Server.mk "ftp://h/v1"] = "ftp://h/v1".data ∧
      basePathClaim [Server.mk "ftp://h/v1"] = "/v1".data ∧
      basePathOf [Server.mk "ftp://h/v1"] ≠ basePathClaim [Server.mk "ftp://h/v1"] ∧
      basePathOf [Server.mk "/v1/"] = "/v1".data ∧
      basePathClaim [Server.mk "/v1/"] = "/v1/".data ∧
      basePathOf [Server.mk "/v1/"] ≠ basePathClaim [Server.mk "/v1/"] ∧
      basePathOf [Server.mk "http://h\x01/v1/"] = [] ∧
      basePathClaim [Server.mk "http://h\x01/v1/"] = "/v1/".data ∧
      basePathOf [Server.mk "http://h\x01/v1/"] ≠
        basePathClaim [Server.mk "http://h\x01/v1/"] := by
  decide

/-- C6 (amended): the base path is derived from the first server URL by
the HTTP-prefix test, taking the parsed path component with one trailing
slash removed (empty when parsing fails) in the HTTP branch and the raw
string with one trailing slash removed otherwise, and is empty for a
missing server list. -/
theorem base_path_derivation_amended (servers : List Server) :
    basePathOf servers = basePathAmended servers := by
  cases servers <;> rfl

/-- C7 counterexample: for a first host entry that does not parse as a
URL (modelled here by a control character, which `url.Parse` rejects),
the extracted hostname is the raw entry, not the empty string the claim
asserts. -/
theorem hostname_unparsable_counterexample :
    containsCtl ("\x01" : String).data = true ∧
      resolveHostname (Backend.mk "/x" "" ["\x01"]) = "\x01" ∧
      ("\x01" : String) ≠ "" := by
  decide

/-- C7 (amended): the hostname of a route is the extracted network
hostname of the first entry of the host list; it is the raw first entry
when that entry is unparsable as a URL, and the empty string when the
host list is empty. -/
theorem hostname_resolution_amended (b : Backend) (hd : String) (t : List String)
    (hb : b.host = hd :: t) :
    resolveHostname b = extractHostname hd ∧
      (containsCtl hd.data = true → extractHostname hd = hd) ∧
      resolveHostname (Backend.mk b.urlPattern b.method []) = "" := by
  refine ⟨?_, ?_, rfl⟩
  · unfold resolveHostname
    rw [hb]
  · intro hc
    simp [extractHostname, hc]

/-- Witness for the amended C7 theorem at a concrete backend whose first
host entry is unparsable. -/
theorem hostname_resolution_witness :
    (Backend.mk "/y" "" ["\x01", "https://svc.example"]).host =
        "\x01" :: ["https://svc.example"] ∧
      (resolveHostname (Backend.mk "/y" "" ["\x01", "https://svc.example"]) =
          extractHostname "\x01" ∧
        (containsCtl ("\x01" : String).data = true →
          extractHostname "\x01" = "\x01") ∧
        resolveHostname (Backend.mk "/y" "" []) = "") :=
  ⟨rfl, hostname_resolution_amended
    (Backend.mk "/y" "" ["\x01", "https://svc.example"]) "\x01"
    ["https://svc.example"] rfl⟩

/-- Modelled from `strings.ToUpper` in the Go standard library,
restricted to ASCII letters. -/
def goToUpper (s : String) : String := String.mk (s.data.map Char.toUpper)

/-- True when the URL pattern ends with the literal suffix `/health`,
from `strings.HasSuffix(b.URLPattern, "/health")` in `main`. -/
def hasHealthSuffix (p : String) : Bool := "/health".data.isSuffixOf p.data

/-- The route built from an endpoint and one of its backends, from the
route-extraction loop in `main` (lines 163 to 171): the backend method
when non-empty, else the endpoint method, upper-cased; the raw URL
pattern; and the resolved hostname. -/
def routeOfBackend (ep : Endpoint) (b : Backend) : backendRoute :=
  backendRoute.mk (goToUpper (if b.method = "" then ep.method else b.method))
    b.urlPattern (resolveHostname b)

/-- Route extraction over the backends of one endpoint, from the inner
loop of `main` (lines 148 to 172): when health routes are excluded, a
backend whose URL pattern ends in `/health` is skipped and counted;
when a service filter is set, a backend whose resolved hostname differs
is skipped without being counted; every other backend yields its route.
Returns the extracted routes in order and the health-skip count. -/
def extractBackends (includeHealth : Bool) (service : String) (ep : Endpoint) :
    List Backend → List backendRoute × Nat
  | [] => ([], 0)
  | b :: bs =>
      if !includeHealth && hasHealthSuffix b.urlPattern then
        ((extractBackends includeHealth service ep bs).1,
          (extractBackends includeHealth service ep bs).2 + 1)
      else if service != "" && (routeOfBackend ep b).hostname != service then
        extractBackends includeHealth service ep bs
      else
        (routeOfBackend ep b :: (extractBackends includeHealth service ep bs).1,
          (extractBackends includeHealth service ep bs).2)

/-- Route extraction over all endpoints, from the outer loop of `main`
(lines 145 to 173). -/
def extractRoutes (includeHealth : Bool) (service : String) :
    List Endpoint → List backendRoute × Nat
  | [] => ([], 0)
  | ep :: eps =>
      ((extractBackends includeHealth service ep ep.backend).1 ++
          (extractRoutes includeHealth service eps).1,
        (extractBackends includeHealth service ep ep.backend).2 +
          (extractRoutes includeHealth service eps).2)

/-- Outcome of validating one route, from the validation loop in `main`
(lines 190 to 210). -/
inductive RouteOutcome
  | pass
  | failNoSpec
  | failNotFound
  deriving DecidableEq

/-- The reason line printed for a failing route, from `main` (lines 194
and 207). -/
def failReason : RouteOutcome → Option String
  | RouteOutcome.pass => none
  | RouteOutcome.failNoSpec => some "no spec configured for hostname"
  | RouteOutcome.failNotFound => some "not found in OpenAPI spec"

/-- Validation of one route against the per-hostname documented
operation sets, from the loop body in `main` (lines 190 to 210): FAIL
when the hostname has no entry; otherwise PASS exactly when the key
METHOD-space-normalizedPath is a documented operation. -/
def checkRoute (specOps : List (String × List String)) (r : backendRoute) :
    RouteOutcome :=
  match List.lookup r.hostname specOps with
  | none => RouteOutcome.failNoSpec
  | some ops =>
      if (r.method ++ " " ++ normalizePath r.path) ∈ ops then RouteOutcome.pass
      else RouteOutcome.failNotFound

/-- Mutable state of the validation loop: the pass and fail tallies and
the set of covered (hostname, normalized path) pairs. -/
structure ValState where
  passed : Nat
  failed : Nat
  covered : List (String × String)
  deriving DecidableEq

/-- One iteration of the validation loop: a PASS increments the pass
tally and marks the normalized path covered for the hostname; a FAIL of
either kind increments the fail tally. -/
def valStep (specOps : List (String × List String)) (s : ValState)
    (r : backendRoute) : ValState :=
  match checkRoute specOps r with
  | RouteOutcome.pass =>
      ValState.mk (s.passed + 1) s.failed
        ((r.hostname, normalizePath r.path) :: s.covered)
  | RouteOutcome.failNoSpec => ValState.mk s.passed (s.failed + 1) s.covered
  | RouteOutcome.failNotFound => ValState.mk s.passed (s.failed + 1) s.covered

/-- The whole validation loop over the extracted routes, starting from
zero tallies and no covered paths. -/
def runValidation (specOps : List (String × List String))
    (routes : List backendRoute) : ValState :=
  routes.foldl (valStep specOps) (ValState.mk 0 0 [])

/-- C1: a route whose hostname has a documented-operation set containing
the key built from the upper-cased method and the normalized path is
validated PASS, and its normalized path is marked covered for that
hostname. -/
theorem route_exact_match_passes (specOps : List (String × List String))
    (ops : List String) (ep : Endpoint) (b : Backend) (s : ValState)
    (h1 : List.lookup (routeOfBackend ep b).hostname specOps = some ops)
    (h2 : ((routeOfBackend ep b).method ++ " " ++
        normalizePath (routeOfBackend ep b).path) ∈ ops) :
    checkRoute specOps (routeOfBackend ep b) = RouteOutcome.pass ∧
      ((routeOfBackend ep b).hostname,
          normalizePath (routeOfBackend ep b).path) ∈
        (valStep specOps s (routeOfBackend ep b)).covered := by
  have hc : checkRoute specOps (routeOfBackend ep b) = RouteOutcome.pass := by
    unfold checkRoute
    rw [h1]
    simp [h2]
  refine ⟨hc, ?_⟩
  unfold valStep
  rw [hc]
  exact List.mem_cons_self _ _

/-- Witness for C1 at a concrete endpoint, backend and documented
operation set. -/
theorem route_exact_match_witness :
    checkRoute [("svc.example", ["GET /users/\x7b_\x7d"])]
        (routeOfBackend (Endpoint.mk "/users/\x7bid\x7d" "get" [])
          (Backend.mk "/users/\x7bid\x7d" "" ["https://svc.example"])) =
      RouteOutcome.pass ∧
      ((routeOfBackend (Endpoint.mk "/users/\x7bid\x7d" "get" [])
            (Backend.mk "/users/\x7bid\x7d" "" ["https://svc.example"])).hostname,
          normalizePath (routeOfBackend (Endpoint.mk "/users/\x7bid\x7d" "get" [])
            (Backend.mk "/users/\x7bid\x7d" "" ["https://svc.example"])).path) ∈
        (valStep [("svc.example", ["GET /users/\x7b_\x7d"])] (ValState.mk 0 0 [])
          (routeOfBackend (Endpoint.mk "/users/\x7bid\x7d" "get" [])
            (Backend.mk "/users/\x7bid\x7d" "" ["https://svc.example"]))).covered :=
  route_exact_match_passes [("svc.example", ["GET /users/\x7b_\x7d"])]
    ["GET /users/\x7b_\x7d"] (Endpoint.mk "/users/\x7bid\x7d" "get" [])
    (Backend.mk "/users/\x7bid\x7d" "" ["https://svc.example"])
    (ValState.mk 0 0 []) (by decide) (by decide)

/-- C2: a route whose hostname is absent from the per-hostname
documented-operation map is validated FAIL with the
no-spec-configured reason, for every method and path. -/
theorem missing_hostname_spec_fails (specOps : List (String × List String))
    (m p host : String) (h : List.lookup host specOps = none) :
    checkRoute specOps (backendRoute.mk m p host) = RouteOutcome.failNoSpec ∧
      failReason (checkRoute specOps (backendRoute.mk m p host)) =
        some "no spec configured for hostname" := by
  have hc : checkRoute specOps (backendRoute.mk m p host) =
      RouteOutcome.failNoSpec := by
    unfold checkRoute
    show (match List.lookup host specOps with
      | none => RouteOutcome.failNoSpec
      | some ops =>
          if (m ++ " " ++ normalizePath p) ∈ ops then RouteOutcome.pass
          else RouteOutcome.failNotFound) = RouteOutcome.failNoSpec
    rw [h]
  exact ⟨hc, by rw [hc]; rfl⟩

/-- Witness for C2 at a concrete map missing the hostname of the
route. -/
theorem missing_hostname_spec_witness :
    checkRoute [("svc.example", ["GET /v1"])]
        (backendRoute.mk "GET" "/v1" "other.example") =
      RouteOutcome.failNoSpec ∧
      failReason (checkRoute [("svc.example", ["GET /v1"])]
          (backendRoute.mk "GET" "/v1" "other.example")) =
        some "no spec configured for hostname" :=
  missing_hostname_spec_fails [("svc.example", ["GET /v1"])] "GET" "/v1"
    "other.example" (by decide)

/-- Each iteration of the validation loop increments exactly one of the
two tallies, so over any route list the tallies grow by its length. -/
theorem valFold_tallies (specOps : List (String × List String))
    (routes : List backendRoute) :
    ∀ s : ValState,
      (routes.foldl (valStep specOps) s).passed +
          (routes.foldl (valStep specOps) s).failed =
        s.passed + s.failed + routes.length := by
  induction routes with
  | nil => intro s; simp
  | cons r rs ih =>
      intro s
      rw [List.foldl_cons, ih (valStep specOps s r)]
      cases hc : checkRoute specOps r <;> simp [valStep, hc] <;> omega

/-- The fail tally counts exactly the routes whose outcome is not
PASS. -/
theorem valFold_failed_count (specOps : List (String × List String))
    (routes : List backendRoute) :
    ∀ s : ValState,
      (routes.foldl (valStep specOps) s).failed =
        s.failed + routes.countP
          (fun r => decide (checkRoute specOps r ≠ RouteOutcome.pass)) := by
  induction routes with
  | nil => intro s; simp
  | cons r rs ih =>
      intro s
      rw [List.foldl_cons, ih (valStep specOps s r), List.countP_cons]
      cases hc : checkRoute specOps r <;> simp [valStep, hc] <;> omega

/-- Every route kept by the extraction filters satisfies the health and
service conditions. -/
theorem extractBackends_filters (includeHealth : Bool) (service : String)
    (ep : Endpoint) (bs : List Backend) :
    ∀ r ∈ (extractBackends includeHealth service ep bs).1,
      (includeHealth || !(hasHealthSuffix r.path)) = true ∧
        (service == "" || r.hostname == service) = true := by
  induction bs with
  | nil => intro r hr; simp [extractBackends] at hr
  | cons b bs ih =>
      intro r hr
      rw [extractBackends] at hr
      by_cases hh : (!includeHealth && hasHealthSuffix b.urlPattern) = true
      · rw [if_pos hh] at hr
        exact ih r hr
      · rw [if_neg hh] at hr
        by_cases hs : (service != "" &&
            (routeOfBackend ep b).hostname != service) = true
        · rw [if_pos hs] at hr
          exact ih r hr
        · rw [if_neg hs] at hr
          rcases List.mem_cons.mp hr with h | h
          · subst h
            constructor
            · have hp : (routeOfBackend ep b).path = b.urlPattern := rfl
              rw [hp]
              cases hIncl : includeHealth
              · subst hIncl
                simp only [Bool.not_false, Bool.true_and] at hh
                simp [Bool.not_eq_true] at hh
                simp [hh]
              · rfl
            · cases hsv : (service == "")
              · have : ¬((service != "") = true ∧
                    ((routeOfBackend ep b).hostname != service) = true) := by
                  intro hand
                  exact hs (Bool.and_eq_true _ _ |>.mpr hand)
                have h1 : (service != "") = true := by
                  simp [bne, hsv]
                have h2 : ((routeOfBackend ep b).hostname != service) = false := by
                  cases h2 : ((routeOfBackend ep b).hostname != service)
                  · rfl
                  · exact absurd ⟨h1, h2⟩ this
                simp only [bne, Bool.not_eq_false'] at h2
                simp [h2]
              · rfl
          · exact ih r h

/-- Filter facts lifted to the full extraction over all endpoints. -/
theorem extractRoutes_filters (includeHealth : Bool) (service : String)
    (eps : List Endpoint) :
    ∀ r ∈ (extractRoutes includeHealth service eps).1,
      (includeHealth || !(hasHealthSuffix r.path)) = true ∧
        (service == "" || r.hostname == service) = true := by
  induction eps with
  | nil => intro r hr; simp [extractRoutes] at hr
  | cons ep eps ih =>
      intro r hr
      rw [extractRoutes] at hr
      rcases List.mem_append.mp hr with h | h
      · exact extractBackends_filters includeHealth service ep ep.backend r h
      · exact ih r h

/-- C10: every extracted backend route produces exactly one validation
outcome, so the pass tally plus the fail tally equals the number of
extracted routes, and no route skipped by the health filter or the
service filter appears among the tallied routes. -/
theorem validation_tallies_partition_routes (includeHealth : Bool)
    (service : String) (eps : List Endpoint)
    (specOps : List (String × List String)) :
    (runValidation specOps (extractRoutes includeHealth service eps).1).passed +
        (runValidation specOps
          (extractRoutes includeHealth service eps).1).failed =
      (extractRoutes includeHealth service eps).1.length ∧
      (extractRoutes includeHealth service eps).1.all
        (fun r => includeHealth || !(hasHealthSuffix r.path)) = true ∧
      (extractRoutes includeHealth service eps).1.all
        (fun r => service == "" || r.hostname == service) = true := by
  refine ⟨?_, ?_, ?_⟩
  · have := valFold_tallies specOps (extractRoutes includeHealth service eps).1
      (ValState.mk 0 0 [])
    simpa [runValidation] using this
  · exact List.all_eq_true.mpr fun r hr =>
      (extractRoutes_filters includeHealth service eps r hr).1
  · exact List.all_eq_true.mpr fun r hr =>
      (extractRoutes_filters includeHealth service eps r hr).2

/-- The two sets produced by `parseSpec` in `main.go` for one hostname:
the documented operation keys and the normalized full paths. -/
structure SpecData where
  ops : List String
  allPaths : List String
  deriving DecidableEq

/-- Sequential spec-loading loop from `main` (lines 116 to 142): iterate
the contract-spec entries in map iteration order, skip entries filtered
out by the service flag, and fetch and parse each remaining spec one at
a time, stopping at the first failure. Fetching (URL download or local
override file) and parsing are abstracted into one fallible function
from the hostname. Returns the specs loaded before any failure, in load
order, together with the first failure when one occurred. -/
def loadSpecs (fetch : String → Except String SpecData) (service : String) :
    List (String × ContractSpec) →
      List (String × SpecData) × Option (String × String)
  | [] => ([], none)
  | (name, _) :: rest =>
      if service != "" && name != service then loadSpecs fetch service rest
      else
        match fetch name with
        | Except.error e => ([], some (name, e))
        | Except.ok d =>
            ((name, d) :: (loadSpecs fetch service rest).1,
              (loadSpecs fetch service rest).2)

/-- The per-hostname documented-operation map built from the loaded
specs, the `specOps` map of `main`. -/
def specOpsOf (specs : List (String × SpecData)) : List (String × List String) :=
  specs.map (fun nd => (nd.1, nd.2.ops))

/-- The per-hostname full documented-path map built from the loaded
specs, the `specAllPaths` map of `main`. -/
def specAllPathsOf (specs : List (String × SpecData)) :
    List (String × List String) :=
  specs.map (fun nd => (nd.1, nd.2.allPaths))

/-- The uncovered-path warning pass from `main` (lines 213 to 223): for
every hostname, every documented normalized path never marked covered
yields one warning. -/
def warnList (specAllPaths : List (String × List String))
    (covered : List (String × String)) : List (String × String) :=
  (specAllPaths.map (fun np =>
    (np.2.filter (fun p => !(covered.contains (np.1, p)))).map
      (fun p => (np.1, p)))).flatten

/-- Observable outcome of one run of the tool after the gateway config
has been parsed: the process exit code, a fatal error message when one
was printed, the hostnames whose specs were loaded in load order, the
extracted routes, the two tallies and the emitted warnings. -/
structure RunResult where
  exitCode : Nat
  errorMsg : Option String
  loaded : List String
  routes : List backendRoute
  passed : Nat
  failed : Nat
  warns : List (String × String)
  deriving DecidableEq

/-- The run of `main` after config parsing (lines 103 to 231), over a
parsed config, the contract-spec entries in Go map iteration order, the
abstracted spec fetch and the relevant flags: fail with exit code 2 when
the config has no contract-spec entries; load the specs sequentially and
fail with exit code 2 at the first load error; otherwise extract the
routes, validate each one, optionally emit the uncovered-path warnings,
and exit 1 exactly when the fail tally is positive. -/
def runMain (cfg : KrakenDConfig) (iter : List (String × ContractSpec))
    (fetch : String → Except String SpecData) (includeHealth : Bool)
    (service : String) (warnUncovered : Bool) : RunResult :=
  if iter = [] then
    RunResult.mk 2 (some "no x-contract-specs found in config") [] [] 0 0 []
  else
    match (loadSpecs fetch service iter).2 with
    | some ne =>
        RunResult.mk 2 (some (ne.1 ++ ": FAILED (" ++ ne.2 ++ ")"))
          ((loadSpecs fetch service iter).1.map Prod.fst) [] 0 0 []
    | none =>
        RunResult.mk
          (if (runValidation (specOpsOf (loadSpecs fetch service iter).1)
              (extractRoutes includeHealth service cfg.endpoints).1).failed > 0
            then 1 else 0)
          none
          ((loadSpecs fetch service iter).1.map Prod.fst)
          (extractRoutes includeHealth service cfg.endpoints).1
          (runValidation (specOpsOf (loadSpecs fetch service iter).1)
            (extractRoutes includeHealth service cfg.endpoints).1).passed
          (runValidation (specOpsOf (loadSpecs fetch service iter).1)
            (extractRoutes includeHealth service cfg.endpoints).1).failed
          (if warnUncovered then
            warnList (specAllPathsOf (loadSpecs fetch service iter).1)
              (runValidation (specOpsOf (loadSpecs fetch service iter).1)
                (extractRoutes includeHealth service cfg.endpoints).1).covered
          else [])

/-- The fail tally of a whole validation run is positive exactly when
some route has a non-PASS outcome. -/
theorem runValidation_failed_pos_iff (specOps : List (String × List String))
    (routes : List backendRoute) :
    0 < (runValidation specOps routes).failed ↔
      ∃ r ∈ routes, checkRoute specOps r ≠ RouteOutcome.pass := by
  have hfail : (runValidation specOps routes).failed =
      routes.countP
        (fun r => decide (checkRoute specOps r ≠ RouteOutcome.pass)) := by
    simpa [runValidation] using
      valFold_failed_count specOps routes (ValState.mk 0 0 [])
  rw [hfail, List.countP_pos_iff]
  simp

/-- C3: in a run that reaches validation, the exit code is 1 exactly
when some route fails validation, is 0 whenever every route passes — in
particular when no routes were extracted at all — and is unchanged by
the warn-uncovered flag. -/
theorem exit_code_reflects_only_validation_failures (cfg : KrakenDConfig)
    (iter : List (String × ContractSpec))
    (fetch : String → Except String SpecData) (includeHealth : Bool)
    (service : String) (w w2 : Bool) (hne : iter ≠ [])
    (hok : (loadSpecs fetch service iter).2 = none) :
    ((∃ r ∈ (runMain cfg iter fetch includeHealth service w).routes,
        checkRoute (specOpsOf (loadSpecs fetch service iter).1) r ≠
          RouteOutcome.pass) ↔
        (runMain cfg iter fetch includeHealth service w).exitCode = 1) ∧
      ((∀ r ∈ (runMain cfg iter fetch includeHealth service w).routes,
        checkRoute (specOpsOf (loadSpecs fetch service iter).1) r =
          RouteOutcome.pass) →
        (runMain cfg iter fetch includeHealth service w).exitCode = 0) ∧
      ((runMain cfg iter fetch includeHealth service w).routes = [] →
        (runMain cfg iter fetch includeHealth service w).exitCode = 0) ∧
      (runMain cfg iter fetch includeHealth service w).exitCode =
        (runMain cfg iter fetch includeHealth service w2).exitCode := by
  simp only [runMain, if_neg hne, hok]
  refine ⟨?_, ?_, ?_, trivial⟩
  · rw [← runValidation_failed_pos_iff]
    by_cases hp : 0 < (runValidation (specOpsOf (loadSpecs fetch service iter).1)
        (extractRoutes includeHealth service cfg.endpoints).1).failed
    · simp [hp]
    · simp [hp]
  · intro hall
    have hnp : ¬ 0 < (runValidation (specOpsOf (loadSpecs fetch service iter).1)
        (extractRoutes includeHealth service cfg.endpoints).1).failed := by
      rw [runValidation_failed_pos_iff]
      rintro ⟨r, hr, hner⟩
      exact hner (hall r hr)
    simp [hnp]
  · intro h
    rw [h]
    simp [runValidation]

/-- Witness for C3 at a concrete one-entry config whose spec loads and
whose route list is empty. -/
theorem exit_code_witness :
    ((∃ r ∈ (runMain (KrakenDConfig.mk [] [("h", ContractSpec.mk "u")])
          [("h", ContractSpec.mk "u")]
          (fun _ => Except.ok (SpecData.mk [] [])) false "" true).routes,
        checkRoute (specOpsOf (loadSpecs
            (fun _ => Except.ok (SpecData.mk [] [])) ""
            [("h", ContractSpec.mk "u")]).1) r ≠ RouteOutcome.pass) ↔
        (runMain (KrakenDConfig.mk [] [("h", ContractSpec.mk "u")])
          [("h", ContractSpec.mk "u")]
          (fun _ => Except.ok (SpecData.mk [] [])) false "" true).exitCode = 1) ∧
      ((∀ r ∈ (runMain (KrakenDConfig.mk [] [("h", ContractSpec.mk "u")])
          [("h", ContractSpec.mk "u")]
          (fun _ => Except.ok (SpecData.mk [] [])) false "" true).routes,
        checkRoute (specOpsOf (loadSpecs
            (fun _ => Except.ok (SpecData.mk [] [])) ""
            [("h", ContractSpec.mk "u")]).1) r = RouteOutcome.pass) →
        (runMain (KrakenDConfig.mk [] [("h", ContractSpec.mk "u")])
          [("h", ContractSpec.mk "u")]
          (fun _ => Except.ok (SpecData.mk [] [])) false "" true).exitCode = 0) ∧
      ((runMain (KrakenDConfig.mk [] [("h", ContractSpec.mk "u")])
          [("h", ContractSpec.mk "u")]
          (fun _ => Except.ok (SpecData.mk [] [])) false "" true).routes = [] →
        (runMain (KrakenDConfig.mk [] [("h", ContractSpec.mk "u")])
          [("h", ContractSpec.mk "u")]
          (fun _ => Except.ok (SpecData.mk [] [])) false "" true).exitCode = 0) ∧
      (runMain (KrakenDConfig.mk [] [("h", ContractSpec.mk "u")])
          [("h", ContractSpec.mk "u")]
          (fun _ => Except.ok (SpecData.mk [] [])) false "" true).exitCode =
        (runMain (KrakenDConfig.mk [] [("h", ContractSpec.mk "u")])
          [("h", ContractSpec.mk "u")]
          (fun _ => Except.ok (SpecData.mk [] [])) false "" false).exitCode :=
  exit_code_reflects_only_validation_failures
    (KrakenDConfig.mk [] [("h", ContractSpec.mk "u")])
    [("h", ContractSpec.mk "u")] (fun _ => Except.ok (SpecData.mk [] []))
    false "" true false (by decide) rfl

/-- C8: when the parsed config contains zero contract-spec entries the
run stops with the distinct no-contract-specs error and exit code 2,
with no spec loaded, no route extracted and no route checked. -/
theorem empty_contract_specs_exit2 (cfg : KrakenDConfig)
    (iter : List (String × ContractSpec))
    (fetch : String → Except String SpecData) (includeHealth : Bool)
    (service : String) (warnUncovered : Bool)
    (hp : iter.Perm cfg.contractSpecs) (h0 : cfg.contractSpecs = []) :
    runMain cfg iter fetch includeHealth service warnUncovered =
      RunResult.mk 2 (some "no x-contract-specs found in config") [] [] 0 0 [] := by
  have hiter : iter = [] := by
    rw [h0] at hp
    exact List.Perm.eq_nil hp
  subst hiter
  rfl

/-- Witness for C8 at a concrete empty config. -/
theorem empty_contract_specs_witness :
    runMain (KrakenDConfig.mk [] []) [] (fun _ => Except.ok (SpecData.mk [] []))
        false "" false =
      RunResult.mk 2 (some "no x-contract-specs found in config") [] [] 0 0 [] :=
  empty_contract_specs_exit2 (KrakenDConfig.mk [] []) []
    (fun _ => Except.ok (SpecData.mk [] [])) false "" false
    (List.Perm.refl []) rfl

/-- C9 (amended): the referenced specs are loaded sequentially, one at a
time, in the map iteration order of the contract-spec entries (after the
service filter); that iteration order is unspecified and need not be the
declaration order. -/
theorem specs_loaded_sequentially_in_iteration_order
    (iter : List (String × ContractSpec)) (service : String)
    (fetch : String → Except String SpecData)
    (hok : (loadSpecs fetch service iter).2 = none) :
    (loadSpecs fetch service iter).1.map Prod.fst =
      (iter.filter (fun e => service == "" || e.1 == service)).map Prod.fst := by
  induction iter with
  | nil => rfl
  | cons e rest ih =>
      obtain ⟨name, spec⟩ := e
      rw [loadSpecs] at hok ⊢
      by_cases hsk : (service != "" && name != service) = true
      · rw [if_pos hsk] at hok ⊢
        have hcond : (service == "" || name == service) = false := by
          obtain ⟨h1, h2⟩ := Bool.and_eq_true _ _ |>.mp hsk
          simp only [bne, Bool.not_eq_true'] at h1 h2
          simp [h1, h2]
        rw [List.filter_cons]
        simp only [hcond]
        exact ih hok
      · rw [if_neg hsk] at hok ⊢
        cases hf : fetch name with
        | error e2 =>
            rw [hf] at hok
            simp at hok
        | ok d =>
            rw [hf] at hok
            dsimp only at hok ⊢
            have hcond : (service == "" || name == service) = true := by
              cases h1 : (service == "")
              · cases h2 : (name == service)
                · exfalso
                  apply hsk
                  simp [bne, h1, h2]
                · simp
              · simp
            rw [List.filter_cons]
            simp only [hcond, if_pos]
            simp only [List.map_cons]
            rw [ih hok]

/-- Witness for the amended C9 theorem at a two-entry iteration order
with a service filter keeping both. -/
theorem specs_loaded_sequentially_witness :
    (loadSpecs (fun _ => Except.ok (SpecData.mk [] [])) ""
        [("b", ContractSpec.mk "ub"), ("a", ContractSpec.mk "ua")]).1.map
        Prod.fst =
      ([("b", ContractSpec.mk "ub"), ("a", ContractSpec.mk "ua")].filter
        (fun e => "" == "" || e.1 == "")).map Prod.fst :=
  specs_loaded_sequentially_in_iteration_order
    [("b", ContractSpec.mk "ub"), ("a", ContractSpec.mk "ua")] ""
    (fun _ => Except.ok (SpecData.mk [] [])) rfl

/-- C9 counterexample: the contract-spec entries live in a Go map, whose
iteration order is unspecified; under the admissible iteration order
that swaps two declared entries, the specs are loaded in the swapped
order, not in declaration order. -/
theorem spec_load_order_counterexample :
    [("b", ContractSpec.mk "ub"), ("a", ContractSpec.mk "ua")].Perm
        [("a", ContractSpec.mk "ua"), ("b", ContractSpec.mk "ub")] ∧
      (runMain
          (KrakenDConfig.mk []
            [("a", ContractSpec.mk "ua"), ("b", ContractSpec.mk "ub")])
          [("b", ContractSpec.mk "ub"), ("a", ContractSpec.mk "ua")]
          (fun _ => Except.ok (SpecData.mk [] [])) false "" false).loaded =
        ["b", "a"] ∧
      [("a", ContractSpec.mk "ua"), ("b", ContractSpec.mk "ub")].map Prod.fst =
        ["a", "b"] ∧
      (["b", "a"] : List String) ≠ ["a", "b"] := by
  refine ⟨List.Perm.swap _ _ _, rfl, rfl, by decide⟩
